import Mathlib

/-!
Shallow embedding of the GridTradingAssistant indicator engine
(src/data_processor.py), backtest engine and optimizer (src/strategy.py),
and alert generator (src/strategy.py), over exact rational arithmetic.
Prices are modelled as rationals; a pandas NaN cell is modelled as the
value none of an Option type.
-/

namespace GridTrading

/-- Data model: one OHLC bar of the input series.  The date column is
modelled as an ordinal number (the series is date-ascending per the Series
invariant); the open column is named opn because open is a Lean keyword. -/
structure Bar where
  date : ℕ
  opn : ℚ
  high : ℚ
  low : ℚ
  close : ℚ
  deriving Repr, DecidableEq

instance : Inhabited Bar := ⟨⟨0, 0, 0, 0, 0⟩⟩

/-- Element of a bar list at index i (indices used below are always in
bounds when it matters). -/
def barAt (bars : List Bar) (i : ℕ) : Bar := bars.getD i default

/-- DataProcessor.process_stock_data: mid_price = (high + low) / 2. -/
def mid_price (b : Bar) : ℚ := (b.high + b.low) / 2

/-- DataProcessor.process_stock_data: amplitude = (high - low) / low * 100. -/
def amplitude (b : Bar) : ℚ := (b.high - b.low) / b.low * 100

/-- DataProcessor.process_stock_data:
open_mid_diff = (mid_price - open) / mid_price * 100. -/
def open_mid_diff (b : Bar) : ℚ := (mid_price b - b.opn) / mid_price b * 100

/-- DataProcessor.process_stock_data: the rel_amplitude column is
initialized to NaN and filled for i in range(1, len) with
(high_i - low_i) / close_(i-1) * 100. -/
def rel_amplitude (bars : List Bar) (i : ℕ) : Option ℚ :=
  if 1 ≤ i ∧ i < bars.length then
    some (((barAt bars i).high - (barAt bars i).low) / (barAt bars (i - 1)).close * 100)
  else none

/-- Column of amplitude values of a series (no price input is NaN, so the
column has no NaN entries). -/
def amplitude_col (bars : List Bar) : List ℚ := bars.map amplitude

/-- Column of open_mid_diff values of a series. -/
def open_mid_diff_col (bars : List Bar) : List ℚ := bars.map open_mid_diff

/-- Column of mid_price values of a series. -/
def mid_price_col (bars : List Bar) : List ℚ := bars.map mid_price

/-- DataProcessor.calculate_historic_percentiles on a NaN-free value
column: if len < window the function returns the frame unchanged (the
percentile column does not exist, i.e. is undefined everywhere); otherwise
the column is initialized to NaN and, for each i in range(window, len),
set to (hist_values < current).mean() * 100 over the trailing window
vals[i-window : i] (dropna is the identity on a NaN-free column). -/
def historic_percentile (vals : List ℚ) (window i : ℕ) : Option ℚ :=
  if vals.length < window then none
  else if window ≤ i ∧ i < vals.length then
    if 0 < ((vals.drop (i - window)).take window).length then
      some ((((((vals.drop (i - window)).take window).filter
            (fun x => x < vals.getD i 0)).length : ℚ) /
          ((((vals.drop (i - window)).take window).length : ℕ) : ℚ)) * 100)
    else none
  else none

/-- Mean of a list of rationals (pandas Series.mean on a NaN-free series). -/
def listMean (xs : List ℚ) : ℚ := xs.sum / xs.length

/-- Sum of squared deviations from the mean.  pandas Series.std (ddof=1)
is the real square root of sumSqDev xs / (length - 1); for length 1 the
std is NaN, and for length at least 2 the std is positive exactly when
sumSqDev is positive.  The code guards the z-score assignment with
std > 0 (false for NaN), so definedness of the z-score depends only on
this sum and the window length. -/
def sumSqDev (xs : List ℚ) : ℚ := (xs.map (fun x => (x - listMean xs) ^ 2)).sum

/-- Boolean form of the std > 0 guard of the z-score loops in
DataProcessor.calculate_enhanced_amplitude and
calculate_enhanced_open_mid_diff (see sumSqDev). -/
def stdPos (xs : List ℚ) : Bool := decide (2 ≤ xs.length) && decide (0 < sumSqDev xs)

/-- Definedness of the z-score columns (amplitude_zscore,
open_mid_diff_zscore): the column is initialized to NaN and assigned,
for i in range(window, len), exactly when the trailing window
vals[i-window : i] is nonempty and its std is positive.  The assigned
value (current - mean) / std is irrational in general and is not needed
by any claim, so only definedness is modelled. -/
def zscore_defined (vals : List ℚ) (window i : ℕ) : Bool :=
  decide (window ≤ i) && decide (i < vals.length) &&
    decide (0 < ((vals.drop (i - window)).take window).length) &&
    stdPos ((vals.drop (i - window)).take window)

/-- amplitude_percentile column with the default window 20 (wired through
calculate_enhanced_amplitude -> calculate_historic_percentiles). -/
def amplitude_percentile (bars : List Bar) (i : ℕ) : Option ℚ :=
  historic_percentile (amplitude_col bars) 20 i

/-- open_mid_diff_percentile column with the default window 20. -/
def open_mid_diff_percentile (bars : List Bar) (i : ℕ) : Option ℚ :=
  historic_percentile (open_mid_diff_col bars) 20 i

/-- Definedness of the amplitude_zscore column with the default window 20. -/
def amplitude_zscore_defined (bars : List Bar) (i : ℕ) : Bool :=
  zscore_defined (amplitude_col bars) 20 i

/-- Definedness of the open_mid_diff_zscore column with the default window 20. -/
def open_mid_diff_zscore_defined (bars : List Bar) (i : ℕ) : Bool :=
  zscore_defined (open_mid_diff_col bars) 20 i

/-- DataProcessor.calculate_enhanced_amplitude: the true_range column is
initialized to 0.0 everywhere and then, for i in range(1, len),
overwritten with max(high_i - low_i, |high_i - close_(i-1)|,
|low_i - close_(i-1)|).  Index 0 keeps the initial 0.0 (a defined number,
not NaN). -/
def true_range_val (bars : List Bar) (i : ℕ) : ℚ :=
  if 1 ≤ i then
    max (max ((barAt bars i).high - (barAt bars i).low)
             |(barAt bars i).high - (barAt bars (i - 1)).close|)
        |(barAt bars i).low - (barAt bars (i - 1)).close|
  else 0

/-- true_range column as stored in the frame (every in-bounds cell holds a
number; out-of-bounds indices are none). -/
def true_range (bars : List Bar) (i : ℕ) : Option ℚ :=
  if i < bars.length then some (true_range_val bars i) else none

/-- Rolling mean with pandas semantics over a NaN-free column: NaN until
the window is full, then the plain mean of the last period values. -/
def rollingMean (vals : List ℚ) (period i : ℕ) : Option ℚ :=
  if period ≤ i + 1 ∧ i < vals.length then
    some (listMean ((vals.drop (i + 1 - period)).take period))
  else none

/-- DataProcessor.calculate_enhanced_amplitude: atr is the rolling mean of
the true_range column with window ma_period (default 10).  The true_range
column is NaN-free (index 0 holds 0.0), so atr is defined from index
ma_period - 1 onward. -/
def atr (bars : List Bar) (ma_period i : ℕ) : Option ℚ :=
  rollingMean ((List.range bars.length).map (true_range_val bars)) ma_period i

/-- DataProcessor.calculate_enhanced_amplitude: amplitude_ma is the
rolling mean of the amplitude column with window ma_period (default 10). -/
def amplitude_ma (bars : List Bar) (ma_period i : ℕ) : Option ℚ :=
  rollingMean (amplitude_col bars) ma_period i

/-- Trailing slice df.iloc[i-window : i] used by mark_breakouts (and by
the percentile loops through its value columns). -/
def histWindow (bars : List Bar) (window i : ℕ) : List Bar :=
  (bars.drop (i - window)).take window

/-- Maximum of the high column over the trailing slice; the 0 default is
only reached on an empty slice, which mark_breakouts never evaluates for
a positive window (pandas would yield NaN there). -/
def histHigh (bars : List Bar) (window i : ℕ) : ℚ :=
  match histWindow bars window i with
  | [] => 0
  | h :: t => (t.map Bar.high).foldl max h.high

/-- Minimum of the low column over the trailing slice. -/
def histLow (bars : List Bar) (window i : ℕ) : ℚ :=
  match histWindow bars window i with
  | [] => 0
  | h :: t => (t.map Bar.low).foldl min h.low

/-- DataProcessor.mark_breakouts: if len < window, the whole
price_breakout column is False; otherwise index i is flagged, for i in
range(window, len), when close_i > max(high over [i-window, i)) *
(1 + threshold) or close_i < min(low over [i-window, i)) * (1 - threshold).
An empty trailing slice gives NaN extrema and no flag (unreachable for
positive window). -/
def price_breakout (bars : List Bar) (window : ℕ) (threshold : ℚ) (i : ℕ) : Bool :=
  if bars.length < window then false
  else if window ≤ i ∧ i < bars.length then
    match histWindow bars window i with
    | [] => false
    | _ :: _ =>
      decide ((barAt bars i).close > histHigh bars window i * (1 + threshold)) ||
        decide ((barAt bars i).close < histLow bars window i * (1 - threshold))
  else false

/-- Colors of the three-day star pattern. -/
inductive StarColor where
  | red
  | green
  | yellow
  deriving Repr, DecidableEq

/-- Condition 1 of calculate_star_indicator: amplitude strictly shrinks
across the triple (i-2, i-1, i). -/
def starShrink (bars : List Bar) (i : ℕ) : Prop :=
  amplitude (barAt bars (i - 2)) > amplitude (barAt bars (i - 1)) ∧
    amplitude (barAt bars (i - 1)) > amplitude (barAt bars i)

/-- Condition 2 of calculate_star_indicator: high and low of days i-1
and i both lie inclusively inside [low_(i-2), high_(i-2)]. -/
def starContained (bars : List Bar) (i : ℕ) : Prop :=
  ((barAt bars (i - 2)).low ≤ (barAt bars (i - 1)).low ∧
    (barAt bars (i - 1)).low ≤ (barAt bars (i - 2)).high ∧
    (barAt bars (i - 2)).low ≤ (barAt bars (i - 1)).high ∧
    (barAt bars (i - 1)).high ≤ (barAt bars (i - 2)).high) ∧
  ((barAt bars (i - 2)).low ≤ (barAt bars i).low ∧
    (barAt bars i).low ≤ (barAt bars (i - 2)).high ∧
    (barAt bars (i - 2)).low ≤ (barAt bars i).high ∧
    (barAt bars i).high ≤ (barAt bars (i - 2)).high)

/-- Strictly increasing mid-price across the triple (red case). -/
def starMidInc (bars : List Bar) (i : ℕ) : Prop :=
  mid_price (barAt bars (i - 2)) < mid_price (barAt bars (i - 1)) ∧
    mid_price (barAt bars (i - 1)) < mid_price (barAt bars i)

/-- Strictly decreasing mid-price across the triple (green case). -/
def starMidDec (bars : List Bar) (i : ℕ) : Prop :=
  mid_price (barAt bars (i - 2)) > mid_price (barAt bars (i - 1)) ∧
    mid_price (barAt bars (i - 1)) > mid_price (barAt bars i)

instance (bars : List Bar) (i : ℕ) : Decidable (starShrink bars i) := by
  unfold starShrink; infer_instance

instance (bars : List Bar) (i : ℕ) : Decidable (starContained bars i) := by
  unfold starContained; infer_instance

instance (bars : List Bar) (i : ℕ) : Decidable (starMidInc bars i) := by
  unfold starMidInc; infer_instance

instance (bars : List Bar) (i : ℕ) : Decidable (starMidDec bars i) := by
  unfold starMidDec; infer_instance

/-- DataProcessor.calculate_star_indicator: for each i in range(2, len),
the flag is set on day i when the amplitudes of the triple (i-2, i-1, i)
strictly shrink and both high and low of days i-1 and i lie inclusively
inside [low_(i-2), high_(i-2)]; the color follows the mid-price trend
across the triple.  With fewer than 3 bars the column is all None. -/
def star_indicator (bars : List Bar) (i : ℕ) : Option StarColor :=
  if bars.length < 3 then none
  else if 2 ≤ i ∧ i < bars.length then
    if starShrink bars i ∧ starContained bars i then
      if starMidInc bars i then some .red
      else if starMidDec bars i then some .green
      else some .yellow
    else none
  else none

/-- Smoothing factor of a pandas ewm with a given span: alpha = 2 / (span + 1). -/
def emaAlpha (span : ℕ) : ℚ := 2 / (span + 1)

/-- Tail of the EMA recurrence: given the previous smoothed value, each
new value y = (1 - alpha) * prev + alpha * x. -/
def ewmAux (alpha : ℚ) (prev : ℚ) : List ℚ → List ℚ
  | [] => []
  | x :: rest =>
    let y := (1 - alpha) * prev + alpha * x
    y :: ewmAux alpha y rest

/-- pandas Series.ewm(span, adjust=False).mean(): the recurrence seeded by
the first value of the series. -/
def ewm (alpha : ℚ) : List ℚ → List ℚ
  | [] => []
  | x :: rest => x :: ewmAux alpha x rest

/-- DataProcessor.calculate_mpmi: MPMI_Line = ewm span 12 of mid_price
minus ewm span 26 of mid_price. -/
def MPMI_Line (bars : List Bar) : List ℚ :=
  List.zipWith (fun a b => a - b)
    (ewm (emaAlpha 12) (mid_price_col bars)) (ewm (emaAlpha 26) (mid_price_col bars))

/-- DataProcessor.calculate_mpmi: MPMI_Signal = ewm span 9 of MPMI_Line. -/
def MPMI_Signal (bars : List Bar) : List ℚ :=
  ewm (emaAlpha 9) (MPMI_Line bars)

/-- DataProcessor.calculate_mpmi: MPMI_Hist = MPMI_Line - MPMI_Signal. -/
def MPMI_Hist (bars : List Bar) : List ℚ :=
  List.zipWith (fun a b => a - b) (MPMI_Line bars) (MPMI_Signal bars)

/-- Value of MPMI_Line at an index (0 as the out-of-bounds default). -/
def lineAt (bars : List Bar) (i : ℕ) : ℚ := (MPMI_Line bars).getD i 0

/-- Value of MPMI_Signal at an index. -/
def signalAt (bars : List Bar) (i : ℕ) : ℚ := (MPMI_Signal bars).getD i 0

/-- DataProcessor.calculate_mpmi: MPMI_GoldenCross at i is
(line_i > signal_i) and (line_(i-1) <= signal_(i-1)); the shift(1)
comparison against NaN makes index 0 False. -/
def MPMI_GoldenCross (bars : List Bar) (i : ℕ) : Bool :=
  if 1 ≤ i ∧ i < bars.length then
    decide (lineAt bars i > signalAt bars i) &&
      decide (lineAt bars (i - 1) ≤ signalAt bars (i - 1))
  else false

/-- DataProcessor.calculate_mpmi: MPMI_DeathCross is the mirror of
MPMI_GoldenCross. -/
def MPMI_DeathCross (bars : List Bar) (i : ℕ) : Bool :=
  if 1 ≤ i ∧ i < bars.length then
    decide (lineAt bars i < signalAt bars i) &&
      decide (lineAt bars (i - 1) ≥ signalAt bars (i - 1))
  else false

/-!
Backtest engine: TradingStrategy.mid_price_trading (src/strategy.py).
The engine reads the columns date, mid_price, high, low, close of the
enriched frame; a TradeBar carries exactly those.  The engine first sorts
by date; the Series invariant keeps the input date-ascending, so the sort
is the identity here and the input list is taken as already sorted.
-/

/-- Row of the enriched frame as read by the backtest loop. -/
structure TradeBar where
  date : ℕ
  mid_price : ℚ
  high : ℚ
  low : ℚ
  close : ℚ
  deriving Repr, DecidableEq

instance : Inhabited TradeBar := ⟨⟨0, 0, 0, 0, 0⟩⟩

/-- Trade record appended by the backtest loop: a buy dict carries
(date, price, shares, amount, fee, cost), a sell dict carries
(date, price, shares, amount, fee, profit). -/
inductive Trade where
  | buy (date : ℕ) (price : ℚ) (shares : ℕ) (amount fee cost : ℚ)
  | sell (date : ℕ) (price : ℚ) (shares : ℕ) (amount fee profit : ℚ)
  deriving Repr, DecidableEq

/-- Whether a trade record is a sell. -/
def Trade.isSell : Trade → Bool
  | .sell _ _ _ _ _ _ => true
  | .buy _ _ _ _ _ _ => false

/-- Whether a trade record is a buy. -/
def Trade.isBuy : Trade → Bool
  | .buy _ _ _ _ _ _ => true
  | .sell _ _ _ _ _ _ => false

/-- Profit field of a sell record (sells always carry one). -/
def Trade.profit : Trade → ℚ
  | .sell _ _ _ _ _ p => p
  | .buy _ _ _ _ _ _ => 0

/-- Mutable loop state of the backtest: cash, share count, cost basis. -/
structure TState where
  capital : ℚ
  shares : ℕ
  cost_basis : ℚ
  deriving Repr, DecidableEq

/-- Channel upper price of a bar: mid_price * (1 + upper_pct). -/
def upperPrice (upper_pct : ℚ) (b : TradeBar) : ℚ := b.mid_price * (1 + upper_pct)

/-- Channel lower price of a bar: mid_price * (1 - lower_pct). -/
def lowerPrice (lower_pct : ℚ) (b : TradeBar) : ℚ := b.mid_price * (1 - lower_pct)

/-- Share count of a buy: int(capital / (buy_price * (1 + fee_rate))).
Python int() truncates toward zero; the quotient is positive whenever the
buy executes, where truncation equals the floor (and the guard
int(x) > 0 agrees with floor(x) > 0 for every real x). -/
def maxShares (lower_pct fee_rate : ℚ) (s : TState) (b : TradeBar) : ℤ :=
  ⌊s.capital / (lowerPrice lower_pct b * (1 + fee_rate))⌋

/-- One iteration of the bar loop of TradingStrategy.mid_price_trading:
sell at the upper channel price when high >= upper and shares are held
(clearing the position), else buy at the lower channel price when
low <= lower, no shares are held and capital > 0, skipped when the share
count floors to zero.  Returns the new state and the trade records
appended on this bar. -/
def stepBar (upper_pct lower_pct fee_rate : ℚ) (s : TState) (b : TradeBar) :
    TState × List Trade :=
  if b.high ≥ upperPrice upper_pct b ∧ 0 < s.shares then
    let sell_amount := (s.shares : ℚ) * upperPrice upper_pct b
    let fee := sell_amount * fee_rate
    let net_amount := sell_amount - fee
    let profit := net_amount - s.cost_basis
    (⟨s.capital + net_amount, 0, 0⟩,
      [.sell b.date (upperPrice upper_pct b) s.shares sell_amount fee profit])
  else if b.low ≤ lowerPrice lower_pct b ∧ s.shares = 0 ∧ 0 < s.capital then
    if 0 < maxShares lower_pct fee_rate s b then
      let ms : ℕ := (maxShares lower_pct fee_rate s b).toNat
      let buy_amount := (ms : ℚ) * lowerPrice lower_pct b
      let fee := buy_amount * fee_rate
      let total_cost := buy_amount + fee
      (⟨s.capital - total_cost, ms, total_cost⟩,
        [.buy b.date (lowerPrice lower_pct b) ms buy_amount fee total_cost])
    else (s, [])
  else (s, [])

/-- The bar loop: final state plus the list of per-bar appended trade
lists (their concatenation is the trades list of the run).  The daily
position snapshots the code also appends are not consumed by any claim
and are omitted. -/
def runBars (upper_pct lower_pct fee_rate : ℚ) (s : TState) :
    List TradeBar → TState × List (List Trade)
  | [] => (s, [])
  | b :: rest =>
    let sb := stepBar upper_pct lower_pct fee_rate s b
    let rec' := runBars upper_pct lower_pct fee_rate sb.1 rest
    (rec'.1, sb.2 :: rec'.2)

/-- Result dictionary of TradingStrategy.mid_price_trading (the fields the
claims consume; daily_positions omitted).  The early-return dictionary for
series shorter than 2 bars carries only total_return, total_trades,
win_rate and trades; its other fields are filled neutrally here. -/
structure BacktestResult where
  initial_capital : ℚ
  final_value : ℚ
  total_return : ℚ
  total_trades : ℕ
  win_trades : ℕ
  loss_trades : ℕ
  win_rate : ℚ
  trades : List Trade
  deriving Repr, DecidableEq

/-- Number of winning sells of a trade list (type sell and profit > 0). -/
def winSells (trades : List Trade) : ℕ :=
  (trades.filter (fun t => t.isSell && decide (0 < t.profit))).length

/-- Number of losing sells of a trade list (type sell and profit <= 0). -/
def lossSells (trades : List Trade) : ℕ :=
  (trades.filter (fun t => t.isSell && decide (t.profit ≤ 0))).length

/-- TradingStrategy.mid_price_trading over a date-sorted enriched series. -/
def mid_price_trading (df : List TradeBar) (upper_pct lower_pct : ℚ)
    (initial_capital : ℚ) (fee_rate : ℚ) : BacktestResult :=
  if df.length < 2 then
    ⟨initial_capital, initial_capital, 0, 0, 0, 0, 0, []⟩
  else
    let run := runBars upper_pct lower_pct fee_rate ⟨initial_capital, 0, 0⟩ df
    let trades := run.2.flatten
    let final_value :=
      if 0 < run.1.shares then
        run.1.capital + (run.1.shares : ℚ) * (df.getLast?.getD default).close
      else run.1.capital
    let total_return := (final_value / initial_capital - 1) * 100
    let wins := winSells trades
    let losses := lossSells trades
    ⟨initial_capital, final_value, total_return,
      (trades.filter Trade.isBuy).length, wins, losses,
      (wins : ℚ) / (max (wins + losses) 1 : ℕ), trades⟩

/-!
Parameter optimizer: TradingStrategy.optimize_parameters (src/strategy.py).
-/

/-- np.arange(start, stop, step) for a positive step: the values
start + k * step for k < ceil((stop - start) / step).  The optimizer only
builds ascending grids; a non-positive step is not exercised and is
modelled as the empty grid. -/
def arange (start stop step : ℚ) : List ℚ :=
  (List.range (if 0 < step then (⌈(stop - start) / step⌉).toNat else 0)).map
    (fun (k : ℕ) => start + (k : ℚ) * step)

/-- A (start, stop, step) range tuple of the optimizer. -/
structure PRange where
  start : ℚ
  stop : ℚ
  step : ℚ
  deriving Repr, DecidableEq

/-- The grid of (upper_pct, lower_pct) pairs in iteration order: outer
loop ascending over upper values, inner loop ascending over lower values;
each arange is called with stop + 0.0001. -/
def gridPairs (ur lr : PRange) : List (ℚ × ℚ) :=
  (arange ur.start (ur.stop + 1 / 10000) ur.step).flatMap
    (fun u => (arange lr.start (lr.stop + 1 / 10000) lr.step).map (fun l => (u, l)))

/-- total_return of the backtest the optimizer runs for one grid pair
(mid_price_trading with its default initial capital 100000 and default
fee rate 0.0003). -/
def totalReturn (df : List TradeBar) (p : ℚ × ℚ) : ℚ :=
  (mid_price_trading df p.1 p.2 100000 (3 / 10000)).total_return

/-- The comparison result['total_return'] > best_return, where the
initial best_return is -inf (modelled as none): every number beats it. -/
def beats (v : ℚ) : Option ℚ → Bool
  | none => true
  | some br => decide (br < v)

/-- The grid-search loop: fold over the pairs, replacing the best pair
exactly on strict improvement of total_return. -/
def searchBest (f : ℚ × ℚ → ℚ) : (ℚ × ℚ) × Option ℚ → List (ℚ × ℚ) → (ℚ × ℚ) × Option ℚ
  | acc, [] => acc
  | acc, p :: rest =>
    if beats (f p) acc.2 then searchBest f (p, some (f p)) rest
    else searchBest f acc rest

/-- Row of the all_results list of the optimizer. -/
structure GridEntry where
  upper_pct : ℚ
  lower_pct : ℚ
  total_return : ℚ
  total_trades : ℕ
  win_rate : ℚ
  deriving Repr, DecidableEq

/-- Result of TradingStrategy.optimize_parameters.  best_return is -inf
(none) only when the grid is empty. -/
structure OptResult where
  best_upper : ℚ
  best_lower : ℚ
  best_return : Option ℚ
  all_results : List GridEntry
  deriving Repr, DecidableEq

/-- TradingStrategy.optimize_parameters: for fewer than 10 bars, return
the default parameters (0.01, 0.01) with best_return 0 and no results;
otherwise grid-search mid_price_trading over the pairs, keeping the first
strict maximizer of total_return. -/
def optimize_parameters (df : List TradeBar) (ur lr : PRange) : OptResult :=
  if df.length < 10 then ⟨1 / 100, 1 / 100, some 0, []⟩
  else
    ⟨(searchBest (totalReturn df) ((1 / 100, 1 / 100), none) (gridPairs ur lr)).1.1,
     (searchBest (totalReturn df) ((1 / 100, 1 / 100), none) (gridPairs ur lr)).1.2,
     (searchBest (totalReturn df) ((1 / 100, 1 / 100), none) (gridPairs ur lr)).2,
     (gridPairs ur lr).map (fun p =>
       ⟨p.1, p.2, (mid_price_trading df p.1 p.2 100000 (3 / 10000)).total_return,
        (mid_price_trading df p.1 p.2 100000 (3 / 10000)).total_trades,
        (mid_price_trading df p.1 p.2 100000 (3 / 10000)).win_rate⟩)⟩

/-- Strict lexicographic order on parameter pairs. -/
def lexLt (a b : ℚ × ℚ) : Prop := a.1 < b.1 ∨ (a.1 = b.1 ∧ a.2 < b.2)

/-- Reflexive lexicographic order on parameter pairs. -/
def lexLe (a b : ℚ × ℚ) : Prop := a.1 < b.1 ∨ (a.1 = b.1 ∧ a.2 ≤ b.2)

instance (a b : ℚ × ℚ) : Decidable (lexLt a b) := by
  unfold lexLt; infer_instance

instance (a b : ℚ × ℚ) : Decidable (lexLe a b) := by
  unfold lexLe; infer_instance

/-!
Alert generator: TradingStrategy.generate_alerts (src/strategy.py).
-/

/-- Row of the enriched frame as read by generate_alerts.  The
amplitude_percentile and main_net_inflow cells may be absent or NaN
(both modelled as none): the code guards them with a membership test and
with comparisons that are False on NaN. -/
structure EnrichedBar where
  date : ℕ
  high : ℚ
  low : ℚ
  close : ℚ
  amplitude : ℚ
  amplitude_percentile : Option ℚ
  main_net_inflow : Option ℚ
  deriving Repr, DecidableEq

instance : Inhabited EnrichedBar := ⟨⟨0, 0, 0, 0, 0, none, none⟩⟩

/-- Alert kinds (type together with the direction field where present). -/
inductive AlertKind where
  | breakout_up
  | breakout_down
  | abnormal_amplitude
  | fund_flow_in
  | fund_flow_out
  deriving Repr, DecidableEq

/-- Severity level of an alert. -/
inductive AlertLevel where
  | info
  | warning
  deriving Repr, DecidableEq

/-- Alert record (the human-readable message string is not modelled). -/
structure Alert where
  kind : AlertKind
  date : ℕ
  level : AlertLevel
  deriving Repr, DecidableEq

/-- History slice df.iloc[-window-1 : -1]: the window bars before the
latest one (clamped at the left end). -/
def alertHist (df : List EnrichedBar) (window : ℕ) : List EnrichedBar :=
  (df.take (df.length - 1)).drop (df.length - window - 1)

/-- The latest bar of the frame (only read when the frame is nonempty). -/
def latestBar (df : List EnrichedBar) : EnrichedBar := df.getLast?.getD default

/-- Up-breakout condition on the latest bar: close > hist high *
(1 + threshold); False when the history slice is empty (max of an empty
series is NaN). -/
def alertUpCond (df : List EnrichedBar) (window : ℕ) (threshold : ℚ) : Bool :=
  match alertHist df window with
  | [] => false
  | h :: t =>
    decide ((latestBar df).close > ((t.map EnrichedBar.high).foldl max h.high) * (1 + threshold))

/-- Down-breakout condition on the latest bar: close < hist low *
(1 - threshold). -/
def alertDownCond (df : List EnrichedBar) (window : ℕ) (threshold : ℚ) : Bool :=
  match alertHist df window with
  | [] => false
  | h :: t =>
    decide ((latestBar df).close < ((t.map EnrichedBar.low).foldl min h.low) * (1 - threshold))

/-- Abnormal-amplitude condition: amplitude_percentile present and above
the threshold. -/
def alertAmpCond (df : List EnrichedBar) (amplitude_threshold : ℚ) : Bool :=
  match (latestBar df).amplitude_percentile with
  | some v => decide (v > amplitude_threshold)
  | none => false

/-- Fund-flow condition: main_net_inflow present and larger than 1000000
in absolute value. -/
def alertFundCond (df : List EnrichedBar) : Bool :=
  match (latestBar df).main_net_inflow with
  | some v => decide (|v| > 1000000)
  | none => false

/-- The breakout alert appended by the first check: up checked first,
down only in the elif branch. -/
def breakoutBlock (df : List EnrichedBar) (window : ℕ) (price_change_threshold : ℚ) :
    List Alert :=
  if alertUpCond df window price_change_threshold then
    [⟨.breakout_up, (latestBar df).date, .warning⟩]
  else if alertDownCond df window price_change_threshold then
    [⟨.breakout_down, (latestBar df).date, .warning⟩]
  else []

/-- The abnormal-amplitude alert appended by the second check. -/
def ampBlock (df : List EnrichedBar) (amplitude_threshold : ℚ) : List Alert :=
  if alertAmpCond df amplitude_threshold then
    [⟨.abnormal_amplitude, (latestBar df).date, .warning⟩]
  else []

/-- The fund-flow alert appended by the third check: direction in when
the inflow is positive, level info for inflows and warning for outflows. -/
def fundBlock (df : List EnrichedBar) : List Alert :=
  match (latestBar df).main_net_inflow with
  | some v =>
    if decide (|v| > 1000000) then
      [⟨(if 0 < v then .fund_flow_in else .fund_flow_out), (latestBar df).date,
        (if 0 < v then .info else .warning)⟩]
    else []
  | none => []

/-- TradingStrategy.generate_alerts: on the latest bar, check the
up-breakout (elif down-breakout), then abnormal amplitude, then fund
flow, appending one alert per satisfied check. -/
def generate_alerts (df : List EnrichedBar) (window : ℕ)
    (amplitude_threshold price_change_threshold : ℚ) : List Alert :=
  if df.length = 0 ∨ df.length < window then []
  else
    breakoutBlock df window price_change_threshold ++
      ampBlock df amplitude_threshold ++ fundBlock df

/-- Abstract form of the grid-search loop with the running best pair
threaded explicitly (searchBest from a live best equals this). -/
def firstArgmax (f : ℚ × ℚ → ℚ) : ℚ × ℚ → List (ℚ × ℚ) → ℚ × ℚ
  | b, [] => b
  | b, p :: rest => if f b < f p then firstArgmax f p rest else firstArgmax f b rest

/-!
Concrete inputs used by the witness and counterexample theorems.
-/

/-- Series of 21 bars with pairwise distinct amplitudes (amplitude of bar
j is j). -/
def c1ex : List Bar :=
  [⟨0, 100, 100, 100, 100⟩, ⟨1, 100, 101, 100, 100⟩, ⟨2, 100, 102, 100, 100⟩,
   ⟨3, 100, 103, 100, 100⟩, ⟨4, 100, 104, 100, 100⟩, ⟨5, 100, 105, 100, 100⟩,
   ⟨6, 100, 106, 100, 100⟩, ⟨7, 100, 107, 100, 100⟩, ⟨8, 100, 108, 100, 100⟩,
   ⟨9, 100, 109, 100, 100⟩, ⟨10, 100, 110, 100, 100⟩, ⟨11, 100, 111, 100, 100⟩,
   ⟨12, 100, 112, 100, 100⟩, ⟨13, 100, 113, 100, 100⟩, ⟨14, 100, 114, 100, 100⟩,
   ⟨15, 100, 115, 100, 100⟩, ⟨16, 100, 116, 100, 100⟩, ⟨17, 100, 117, 100, 100⟩,
   ⟨18, 100, 118, 100, 100⟩, ⟨19, 100, 119, 100, 100⟩, ⟨20, 100, 120, 100, 100⟩]

/-- The single-bar backtest scenario of the spec: mid_price 100 (so
mid_lower = 99), low 98, high 99.5. -/
def c2bar : TradeBar := ⟨0, 100, 199 / 2, 98, 99⟩

/-- Plain 12-bar series (high 101, low 99, close 100). -/
def c3ex : List Bar :=
  [⟨0, 100, 101, 99, 100⟩, ⟨1, 100, 101, 99, 100⟩, ⟨2, 100, 101, 99, 100⟩,
   ⟨3, 100, 101, 99, 100⟩, ⟨4, 100, 101, 99, 100⟩, ⟨5, 100, 101, 99, 100⟩,
   ⟨6, 100, 101, 99, 100⟩, ⟨7, 100, 101, 99, 100⟩, ⟨8, 100, 101, 99, 100⟩,
   ⟨9, 100, 101, 99, 100⟩, ⟨10, 100, 101, 99, 100⟩, ⟨11, 100, 101, 99, 100⟩]

/-- The star-pattern triple of the spec: (high,low) = (110,100), (108,102),
(106,104), all mid-prices 105. -/
def c4ex : List Bar :=
  [⟨0, 105, 110, 100, 105⟩, ⟨1, 105, 108, 102, 105⟩, ⟨2, 105, 106, 104, 105⟩]

/-- Ten flat bars at 100 followed by one bar closing at 103. -/
def c5ex : List Bar :=
  [⟨0, 100, 100, 100, 100⟩, ⟨1, 100, 100, 100, 100⟩, ⟨2, 100, 100, 100, 100⟩,
   ⟨3, 100, 100, 100, 100⟩, ⟨4, 100, 100, 100, 100⟩, ⟨5, 100, 100, 100, 100⟩,
   ⟨6, 100, 100, 100, 100⟩, ⟨7, 100, 100, 100, 100⟩, ⟨8, 100, 100, 100, 100⟩,
   ⟨9, 100, 100, 100, 100⟩, ⟨10, 103, 103, 103, 103⟩]

/-- Two bars with mid-prices 100 and 110: MPMI line crosses its signal
from below at index 1. -/
def c6ex : List Bar := [⟨0, 100, 100, 100, 100⟩, ⟨1, 110, 110, 110, 110⟩]

/-- Holding state for the C7 witness: 10 shares at cost basis 500, no cash. -/
def c7state : TState := ⟨0, 10, 500⟩

/-- Bar satisfying both channel conditions at once: mid 100 gives upper
101 and lower 99; high 102 and low 98. -/
def c7bar : TradeBar := ⟨0, 100, 102, 98, 100⟩

/-- The optimizer's default ranges: (0.005, 0.02, 0.005). -/
def defaultR : PRange := ⟨1 / 200, 1 / 50, 1 / 200⟩

/-- Singleton range (0.01, 0.01, 0.01): a one-pair grid. -/
def c8r : PRange := ⟨1 / 100, 1 / 100, 1 / 100⟩

/-- Ten flat bars for the optimizer witness (no trade ever triggers). -/
def c8df : List TradeBar :=
  [⟨0, 100, 100, 100, 100⟩, ⟨1, 100, 100, 100, 100⟩, ⟨2, 100, 100, 100, 100⟩,
   ⟨3, 100, 100, 100, 100⟩, ⟨4, 100, 100, 100, 100⟩, ⟨5, 100, 100, 100, 100⟩,
   ⟨6, 100, 100, 100, 100⟩, ⟨7, 100, 100, 100, 100⟩, ⟨8, 100, 100, 100, 100⟩,
   ⟨9, 100, 100, 100, 100⟩]

/-- Five flat enriched bars with no optional fields: no alert triggers. -/
def c9ex : List EnrichedBar :=
  [⟨0, 100, 100, 100, 0, none, none⟩, ⟨1, 100, 100, 100, 0, none, none⟩,
   ⟨2, 100, 100, 100, 0, none, none⟩, ⟨3, 100, 100, 100, 0, none, none⟩,
   ⟨4, 100, 100, 100, 0, none, none⟩]

/-!
Theorems.  Claim theorems are named claim_CN, their witnesses
claim_CN_wit, counterexamples claim_CN_cex; everything else is a shared
helper lemma.
-/

/-- C4: for every series of length at least 3 and every index i >= 2,
star_indicator at i is non-none exactly when the amplitudes strictly
shrink over the triple (i-2, i-1, i) and the high and low of days i-1 and
i lie inclusively within the day i-2 range; the color is red on a strictly
increasing mid-price triple, green on a strictly decreasing one, and
yellow otherwise, attached to the third day. -/
theorem claim_C4 (bars : List Bar) (i : ℕ) (h2 : 2 ≤ i) (h : i < bars.length) :
    (star_indicator bars i ≠ none ↔ starShrink bars i ∧ starContained bars i)
  ∧ (star_indicator bars i = some StarColor.red ↔
      (starShrink bars i ∧ starContained bars i) ∧ starMidInc bars i)
  ∧ (star_indicator bars i = some StarColor.green ↔
      (starShrink bars i ∧ starContained bars i) ∧ starMidDec bars i)
  ∧ (star_indicator bars i = some StarColor.yellow ↔
      (starShrink bars i ∧ starContained bars i) ∧
        ¬ starMidInc bars i ∧ ¬ starMidDec bars i) := by
  have h3 : ¬ (bars.length < 3) := by omega
  unfold star_indicator
  rw [if_neg h3, if_pos ⟨h2, h⟩]
  by_cases hc : starShrink bars i ∧ starContained bars i
  · rw [if_pos hc]
    by_cases hinc : starMidInc bars i
    · have hnd : ¬ starMidDec bars i := by
        rcases hinc with ⟨i1, _⟩
        rintro ⟨d1, _⟩
        exact absurd i1 (not_lt.mpr (le_of_lt d1))
      rw [if_pos hinc]
      simp [hc, hinc, hnd]
    · rw [if_neg hinc]
      by_cases hdec : starMidDec bars i
      · rw [if_pos hdec]
        simp [hc, hinc, hdec]
      · rw [if_neg hdec]
        simp [hc, hinc, hdec]
  · rw [if_neg hc]
    simp [hc]

/-- C4 witness: the spec's literal triple, with amplitudes 10, 600/102,
200/104 strictly shrinking, contained ranges and flat mid-prices, carries
a yellow star on its third day. -/
theorem claim_C4_wit : star_indicator c4ex 2 = some StarColor.yellow := by
  refine (claim_C4 c4ex 2 (by decide) (by decide)).2.2.2.mpr ⟨⟨?_, ?_⟩, ?_, ?_⟩
  · unfold starShrink amplitude barAt c4ex
    norm_num
  · unfold starContained barAt c4ex
    norm_num
  · unfold starMidInc mid_price barAt c4ex
    norm_num
  · unfold starMidDec mid_price barAt c4ex
    norm_num

/-- C5: with window 5 and threshold 0.02, price_breakout at an in-bounds
index i is true exactly when 5 <= i and the close exceeds the trailing
5-bar high by more than 2 percent or falls below the trailing 5-bar low
by more than 2 percent; indices below the window are never flagged. -/
theorem claim_C5 (bars : List Bar) (i : ℕ) (h : i < bars.length) :
    price_breakout bars 5 (1 / 50) i = true ↔
      5 ≤ i ∧ ((barAt bars i).close > histHigh bars 5 i * (1 + 1 / 50) ∨
               (barAt bars i).close < histLow bars 5 i * (1 - 1 / 50)) := by
  unfold price_breakout
  by_cases h5 : bars.length < 5
  · rw [if_pos h5]
    simp only [false_iff, Bool.false_eq_true]
    rintro ⟨h5i, -⟩
    omega
  · rw [if_neg h5]
    by_cases hwin : 5 ≤ i ∧ i < bars.length
    · rw [if_pos hwin]
      have hlen : (histWindow bars 5 i).length = 5 := by
        unfold histWindow
        rw [List.length_take, List.length_drop]
        omega
      have hne : histWindow bars 5 i ≠ [] := by
        intro hnil
        rw [hnil] at hlen
        simp at hlen
      obtain ⟨b0, t, hbt⟩ := List.exists_cons_of_ne_nil hne
      rw [hbt]
      simp [hwin.1]
    · rw [if_neg hwin]
      simp only [false_iff, Bool.false_eq_true]
      rintro ⟨h5i, -⟩
      exact hwin ⟨h5i, h⟩

/-- C5 witness: ten flat bars at 100 followed by a close of 103 flag the
last bar (index 10), while the flat index 9 and the below-window index 4
stay unflagged. -/
theorem claim_C5_wit :
    price_breakout c5ex 5 (1 / 50) 10 = true ∧ price_breakout c5ex 5 (1 / 50) 9 = false ∧
      price_breakout c5ex 5 (1 / 50) 4 = false := by
  refine ⟨?_, ?_, ?_⟩
  · refine (claim_C5 c5ex 10 (by decide)).mpr ⟨by decide, Or.inl ?_⟩
    unfold barAt histHigh histWindow c5ex
    norm_num
  · have h9 := claim_C5 c5ex 9 (by decide)
    cases hb : price_breakout c5ex 5 (1 / 50) 9
    · rfl
    · exfalso
      rcases (h9.mp hb).2 with hup | hdn
      · revert hup
        unfold barAt histHigh histWindow c5ex
        norm_num
      · revert hdn
        unfold barAt histLow histWindow c5ex
        norm_num
  · have h4 := claim_C5 c5ex 4 (by decide)
    cases hb : price_breakout c5ex 5 (1 / 50) 4
    · rfl
    · exact absurd (h4.mp hb).1 (by omega)

/-- C2: from a flat state with positive capital, a bar whose low reaches
the lower channel price triggers a buy at exactly the lower channel price
with share count floor(capital / (price * (1 + fee_rate))), recording
amount, fee and cost as the code does; the transition is skipped when the
share count floors to zero.  (The spec's concrete arithmetic is off: the
single-bar scenario with capital 10000 and fee 0 leaves capital 1, not
101 — see the counterexample and witness.) -/
theorem claim_C2 (upper_pct lower_pct fee_rate : ℚ) (s : TState) (b : TradeBar)
    (hflat : s.shares = 0) (hcap : 0 < s.capital)
    (hlow : b.low ≤ lowerPrice lower_pct b) :
    (0 < maxShares lower_pct fee_rate s b →
      stepBar upper_pct lower_pct fee_rate s b =
        (⟨s.capital -
            (((maxShares lower_pct fee_rate s b).toNat : ℚ) * lowerPrice lower_pct b +
              ((maxShares lower_pct fee_rate s b).toNat : ℚ) * lowerPrice lower_pct b * fee_rate),
          (maxShares lower_pct fee_rate s b).toNat,
          ((maxShares lower_pct fee_rate s b).toNat : ℚ) * lowerPrice lower_pct b +
            ((maxShares lower_pct fee_rate s b).toNat : ℚ) * lowerPrice lower_pct b * fee_rate⟩,
         [Trade.buy b.date (lowerPrice lower_pct b) (maxShares lower_pct fee_rate s b).toNat
            (((maxShares lower_pct fee_rate s b).toNat : ℚ) * lowerPrice lower_pct b)
            (((maxShares lower_pct fee_rate s b).toNat : ℚ) * lowerPrice lower_pct b * fee_rate)
            (((maxShares lower_pct fee_rate s b).toNat : ℚ) * lowerPrice lower_pct b +
              ((maxShares lower_pct fee_rate s b).toNat : ℚ) * lowerPrice lower_pct b * fee_rate)]))
  ∧ (maxShares lower_pct fee_rate s b ≤ 0 →
      stepBar upper_pct lower_pct fee_rate s b = (s, [])) := by
  have hns : ¬ (b.high ≥ upperPrice upper_pct b ∧ 0 < s.shares) := by
    rintro ⟨-, hsh⟩
    omega
  constructor
  · intro hms
    unfold stepBar
    rw [if_neg hns, if_pos ⟨hlow, hflat, hcap⟩, if_pos hms]
  · intro hms
    unfold stepBar
    rw [if_neg hns, if_pos ⟨hlow, hflat, hcap⟩, if_neg (not_lt.mpr hms)]

/-- C2 counterexample: on the spec's single-bar scenario (mid 100, lower
channel 99, capital 10000, fee 0) the run leaves capital 1, not the 101
the claim states. -/
theorem claim_C2_cex :
    (runBars (1 / 100) (1 / 100) 0 ⟨10000, 0, 0⟩ [c2bar]).1.capital = 1 ∧
      (runBars (1 / 100) (1 / 100) 0 ⟨10000, 0, 0⟩ [c2bar]).1.capital ≠ 101 := by
  have h : runBars (1 / 100) (1 / 100) 0 ⟨10000, 0, 0⟩ [c2bar] =
      (⟨1, 101, 9999⟩, [[Trade.buy 0 99 101 9999 0 9999]]) := by
    unfold runBars stepBar maxShares upperPrice lowerPrice c2bar
    norm_num [runBars]
    have h101 : Int.toNat 101 = 101 := rfl
    rw [h101]
    norm_num
  rw [h]
  norm_num

/-- C2 witness: instantiating the buy rule on the single-bar scenario
executes the buy at price 99 with 101 shares, total cost 9999, leaving
capital 1. -/
theorem claim_C2_wit :
    stepBar (1 / 100) (1 / 100) 0 ⟨10000, 0, 0⟩ c2bar =
      (⟨1, 101, 9999⟩, [Trade.buy 0 99 101 9999 0 9999]) := by
  have hms : maxShares (1 / 100) 0 ⟨10000, 0, 0⟩ c2bar = 101 := by
    unfold maxShares lowerPrice c2bar
    norm_num
  have h := (claim_C2 (1 / 100) (1 / 100) 0 ⟨10000, 0, 0⟩ c2bar rfl (by norm_num)
    (by unfold lowerPrice c2bar; norm_num)).1 (by rw [hms]; norm_num)
  rw [h, hms]
  unfold lowerPrice c2bar
  have h101 : Int.toNat 101 = 101 := rfl
  norm_num [h101]

/-- Helper: every bar appends at most one trade record. -/
theorem stepBar_len_le_one (upper_pct lower_pct fee_rate : ℚ) (s : TState) (b : TradeBar) :
    (stepBar upper_pct lower_pct fee_rate s b).2.length ≤ 1 := by
  unfold stepBar
  split
  · simp
  · split
    · split <;> simp
    · simp

/-- Helper: in a full run, every per-bar trade list has at most one entry. -/
theorem runBars_len_le_one (upper_pct lower_pct fee_rate : ℚ) :
    ∀ (bars : List TradeBar) (s0 : TState),
      ∀ ts ∈ (runBars upper_pct lower_pct fee_rate s0 bars).2, ts.length ≤ 1 := by
  intro bars
  induction bars with
  | nil => intro s0 ts hts; simp [runBars] at hts
  | cons b rest ih =>
    intro s0 ts hts
    simp only [runBars, List.mem_cons] at hts
    rcases hts with h1 | h2
    · rw [h1]; exact stepBar_len_le_one _ _ _ _ _
    · exact ih _ ts h2

/-- C7: the engine never records both a sell and a buy on one bar: each
bar of any run appends at most one trade; a bar satisfying the sell
condition and the buy price condition simultaneously appends exactly one
trade and it is a sell; every appended buy starts from a flat state and
every appended sell from a holding state. -/
theorem claim_C7 (upper_pct lower_pct fee_rate : ℚ) (s : TState) (b : TradeBar)
    (s0 : TState) (bars : List TradeBar) :
    ((stepBar upper_pct lower_pct fee_rate s b).2.length ≤ 1)
  ∧ (b.high ≥ upperPrice upper_pct b ∧ 0 < s.shares ∧ b.low ≤ lowerPrice lower_pct b →
      (stepBar upper_pct lower_pct fee_rate s b).2.all Trade.isSell = true ∧
        (stepBar upper_pct lower_pct fee_rate s b).2.length = 1)
  ∧ (∀ t ∈ (stepBar upper_pct lower_pct fee_rate s b).2, t.isBuy = true → s.shares = 0)
  ∧ (∀ t ∈ (stepBar upper_pct lower_pct fee_rate s b).2, t.isSell = true → 0 < s.shares)
  ∧ (∀ ts ∈ (runBars upper_pct lower_pct fee_rate s0 bars).2, ts.length ≤ 1) := by
  refine ⟨stepBar_len_le_one _ _ _ _ _, ?_, ?_, ?_, runBars_len_le_one _ _ _ bars s0⟩
  · rintro ⟨hsell, hsh, -⟩
    unfold stepBar
    rw [if_pos ⟨hsell, hsh⟩]
    simp [Trade.isSell]
  · intro t ht hbuy
    revert ht
    unfold stepBar
    split
    · intro ht
      simp only [List.mem_singleton] at ht
      rw [ht] at hbuy
      simp [Trade.isBuy] at hbuy
    · split
      · split
        · intro ht
          simp only [List.mem_singleton] at ht
          rename_i hcond _
          exact hcond.2.1
        · intro ht; simp at ht
      · intro ht; simp at ht
  · intro t ht hsel
    revert ht
    unfold stepBar
    split
    · intro ht
      rename_i hcond
      exact hcond.2
    · split
      · split
        · intro ht
          simp only [List.mem_singleton] at ht
          rw [ht] at hsel
          simp [Trade.isSell] at hsel
        · intro ht; simp at ht
      · intro ht; simp at ht

/-- C7 witness: a bar whose high reaches the upper channel and whose low
reaches the lower channel, from a holding state, appends only a sell. -/
theorem claim_C7_wit :
    (stepBar (1 / 100) (1 / 100) 0 c7state c7bar).2.all Trade.isSell = true := by
  refine ((claim_C7 (1 / 100) (1 / 100) 0 c7state c7bar c7state []).2.1 ⟨?_, ?_, ?_⟩).1
  · unfold c7bar upperPrice
    norm_num
  · unfold c7state
    norm_num
  · unfold c7bar lowerPrice
    norm_num

/-- Helper: winning plus losing sells partition the sells. -/
theorem winloss_split (tr : List Trade) :
    winSells tr + lossSells tr = (tr.filter Trade.isSell).length := by
  unfold winSells lossSells
  induction tr with
  | nil => rfl
  | cons t ts ih =>
    cases t with
    | buy d p sh a f c =>
      have hw : Trade.isSell (Trade.buy d p sh a f c) = false := rfl
      simpa [List.filter_cons, hw] using ih
    | sell d p sh a f pr =>
      have hw : Trade.isSell (Trade.sell d p sh a f pr) = true := rfl
      have hprof : Trade.profit (Trade.sell d p sh a f pr) = pr := rfl
      rcases lt_or_le 0 pr with hp | hp
      · simp [List.filter_cons, hw, hprof, hp, hp.not_le]
        omega
      · simp [List.filter_cons, hw, hprof, hp, hp.not_lt]
        omega

/-- C10: win_rate is winning sells over max(total sells, 1), so a run
with no sell trades has win_rate 0 (no division by zero) and win_rate
always lies in [0, 1]. -/
theorem claim_C10 (df : List TradeBar) (upper_pct lower_pct initial_capital fee_rate : ℚ)
    (r : BacktestResult)
    (hr : r = mid_price_trading df upper_pct lower_pct initial_capital fee_rate) :
    (0 ≤ r.win_rate ∧ r.win_rate ≤ 1)
  ∧ r.win_rate =
      (winSells r.trades : ℚ) / ((max (winSells r.trades + lossSells r.trades) 1 : ℕ) : ℚ)
  ∧ winSells r.trades + lossSells r.trades = (r.trades.filter Trade.isSell).length
  ∧ ((r.trades.filter Trade.isSell).length = 0 → r.win_rate = 0) := by
  have key : r.win_rate =
      (winSells r.trades : ℚ) / ((max (winSells r.trades + lossSells r.trades) 1 : ℕ) : ℚ) := by
    rw [hr]
    unfold mid_price_trading
    split
    · simp [winSells, lossSells]
    · rfl
  have hsplit := winloss_split r.trades
  have hdenpos : (0 : ℚ) < ((max (winSells r.trades + lossSells r.trades) 1 : ℕ) : ℚ) := by
    have : 1 ≤ max (winSells r.trades + lossSells r.trades) 1 := le_max_right _ _
    exact_mod_cast Nat.lt_of_lt_of_le Nat.zero_lt_one this
  refine ⟨⟨?_, ?_⟩, key, hsplit, ?_⟩
  · rw [key]
    positivity
  · rw [key]
    rw [div_le_one hdenpos]
    have hle : winSells r.trades ≤ max (winSells r.trades + lossSells r.trades) 1 := by
      have := le_max_left (winSells r.trades + lossSells r.trades) 1
      omega
    exact_mod_cast hle
  · intro hz
    have hw : winSells r.trades = 0 := by omega
    rw [key, hw]
    simp

/-- C10 witness: the empty run records no sells and yields win_rate 0. -/
theorem claim_C10_wit : (mid_price_trading [] 1 1 100 0).win_rate = 0 := by
  exact (claim_C10 [] 1 1 100 0 _ rfl).2.2.2 (by rfl)

/-- Helper: the percentile column is NaN below the window. -/
theorem hp_lead (vals : List ℚ) (window i : ℕ) (hi : i < window) :
    historic_percentile vals window i = none := by
  unfold historic_percentile
  split
  · rfl
  · rw [if_neg (by omega : ¬ (window ≤ i ∧ i < vals.length))]

/-- Helper: the trailing slice has exactly window entries once the window
is full. -/
theorem histLen (vals : List ℚ) (window i : ℕ) (hwi : window ≤ i) (hi : i < vals.length) :
    ((vals.drop (i - window)).take window).length = window := by
  rw [List.length_take, List.length_drop]
  omega

/-- Helper: the percentile column is defined from the window on. -/
theorem hp_full (vals : List ℚ) (window i : ℕ) (hw : 0 < window)
    (hwi : window ≤ i) (hi : i < vals.length) :
    (historic_percentile vals window i).isSome = true := by
  unfold historic_percentile
  rw [if_neg (by omega : ¬ (vals.length < window)), if_pos ⟨hwi, hi⟩,
    if_pos (by rw [histLen vals window i hwi hi]; omega)]
  rfl

/-- Helper: the z-score column is NaN below the window. -/
theorem zscore_lead (vals : List ℚ) (window i : ℕ) (hi : i < window) :
    zscore_defined vals window i = false := by
  unfold zscore_defined
  have hni : ¬ (window ≤ i) := by omega
  simp [hni]

/-- Helper: from the window on, the z-score is defined exactly when the
trailing squared-deviation sum is positive (std > 0). -/
theorem zscore_full (vals : List ℚ) (window i : ℕ) (hw2 : 2 ≤ window)
    (hwi : window ≤ i) (hi : i < vals.length) :
    (zscore_defined vals window i = true ↔
      0 < sumSqDev ((vals.drop (i - window)).take window)) := by
  unfold zscore_defined stdPos
  rw [histLen vals window i hwi hi]
  simp [hwi, hi, hw2]
  omega

/-- C1 (amended): with window 20 and at least 21 bars, the percentile and
z-score fields are undefined at indices 0..19; from index 20 on the
percentile fields are defined, and the z-score fields are defined exactly
when the trailing window's standard deviation is positive. -/
theorem claim_C1 (bars : List Bar) (h : 21 ≤ bars.length) :
    (∀ i, i ≤ 19 →
      amplitude_percentile bars i = none ∧ open_mid_diff_percentile bars i = none ∧
      amplitude_zscore_defined bars i = false ∧ open_mid_diff_zscore_defined bars i = false)
  ∧ (∀ i, 20 ≤ i → i < bars.length →
      (amplitude_percentile bars i).isSome = true ∧
      (open_mid_diff_percentile bars i).isSome = true ∧
      (amplitude_zscore_defined bars i = true ↔
        0 < sumSqDev (((amplitude_col bars).drop (i - 20)).take 20)) ∧
      (open_mid_diff_zscore_defined bars i = true ↔
        0 < sumSqDev (((open_mid_diff_col bars).drop (i - 20)).take 20))) := by
  have hla : (amplitude_col bars).length = bars.length := List.length_map _ _
  have hlo : (open_mid_diff_col bars).length = bars.length := List.length_map _ _
  constructor
  · intro i hi
    exact ⟨hp_lead _ 20 i (by omega), hp_lead _ 20 i (by omega),
      zscore_lead _ 20 i (by omega), zscore_lead _ 20 i (by omega)⟩
  · intro i h20 hlen
    refine ⟨hp_full _ 20 i (by omega) h20 (by omega), hp_full _ 20 i (by omega) h20 (by omega),
      zscore_full _ 20 i (by omega) h20 (by omega), zscore_full _ 20 i (by omega) h20 (by omega)⟩

/-- C1 counterexample: on a 21-bar series with distinct amplitudes, the
percentile and z-score fields at index 19 are still undefined, against
the claim that index 19 onward is defined. -/
theorem claim_C1_cex :
    amplitude_percentile c1ex 19 = none ∧ amplitude_zscore_defined c1ex 19 = false := by
  exact ⟨hp_lead _ 20 19 (by omega), zscore_lead _ 20 19 (by omega)⟩

/-- C1 witness: on the same series, index 20 has a defined percentile
while index 2 does not. -/
theorem claim_C1_wit :
    (amplitude_percentile c1ex 20).isSome = true ∧ amplitude_percentile c1ex 2 = none := by
  have h := claim_C1 c1ex (by decide)
  exact ⟨(h.2 20 (by omega) (by decide)).1, (h.1 2 (by omega)).1⟩

/-- C3 (amended): leading-bar fields are undefined (NaN) — rel_amplitude
at index 0, atr and amplitude_ma before the 10-bar rolling window fills,
percentiles below the 20-bar window — with one exception: true_range at
index 0 is the initialized 0.0, a defined zero, not NaN. -/
theorem claim_C3 (bars : List Bar) (h0 : 0 < bars.length) :
    rel_amplitude bars 0 = none
  ∧ (∀ i, 1 ≤ i → i < bars.length → (rel_amplitude bars i).isSome = true)
  ∧ true_range bars 0 = some 0
  ∧ (∀ i, i + 1 < 10 → atr bars 10 i = none)
  ∧ (∀ i, 9 ≤ i → i < bars.length → (atr bars 10 i).isSome = true)
  ∧ (∀ i, i + 1 < 10 → amplitude_ma bars 10 i = none)
  ∧ (∀ i, 9 ≤ i → i < bars.length → (amplitude_ma bars 10 i).isSome = true)
  ∧ (∀ i, i < 20 → amplitude_percentile bars i = none) := by
  have hla : (amplitude_col bars).length = bars.length := List.length_map _ _
  have hlt : ((List.range bars.length).map (true_range_val bars)).length = bars.length := by
    rw [List.length_map, List.length_range]
  refine ⟨?_, ?_, ?_, ?_, ?_, ?_, ?_, ?_⟩
  · unfold rel_amplitude
    rw [if_neg (by omega : ¬ (1 ≤ 0 ∧ 0 < bars.length))]
  · intro i h1 hi
    unfold rel_amplitude
    rw [if_pos ⟨h1, hi⟩]
    rfl
  · unfold true_range true_range_val
    rw [if_pos h0, if_neg (by omega : ¬ (1 ≤ 0))]
  · intro i hi
    unfold atr rollingMean
    rw [if_neg (by omega : ¬ (10 ≤ i + 1 ∧ i < ((List.range bars.length).map (true_range_val bars)).length))]
  · intro i h9 hi
    unfold atr rollingMean
    rw [if_pos ⟨by omega, by omega⟩]
    rfl
  · intro i hi
    unfold amplitude_ma rollingMean
    rw [if_neg (by omega : ¬ (10 ≤ i + 1 ∧ i < (amplitude_col bars).length))]
  · intro i h9 hi
    unfold amplitude_ma rollingMean
    rw [if_pos ⟨by omega, by omega⟩]
    rfl
  · intro i hi
    exact hp_lead _ 20 i (by omega)

/-- C3 counterexample: true_range at index 0 of a concrete series is the
defined number 0, not the NaN sentinel the claim requires. -/
theorem claim_C3_cex : true_range c3ex 0 = some 0 ∧ true_range c3ex 0 ≠ none := by
  have h1 : true_range c3ex 0 = some 0 := rfl
  refine ⟨h1, ?_⟩
  rw [h1]
  exact fun hc => Option.noConfusion hc

/-- C3 witness: on a 12-bar series, rel_amplitude at 0 is NaN, true_range
at 0 is the zero value, atr is NaN at 5 and defined at 9. -/
theorem claim_C3_wit :
    rel_amplitude c3ex 0 = none ∧ true_range c3ex 0 = some 0 ∧ atr c3ex 10 5 = none ∧
      (atr c3ex 10 9).isSome = true := by
  have h := claim_C3 c3ex (by decide)
  exact ⟨h.1, h.2.2.1, h.2.2.2.1 5 (by omega), h.2.2.2.2.1 9 (by omega) (by decide)⟩

/-- Helper: the EMA tail preserves length. -/
theorem ewmAux_length (alpha : ℚ) :
    ∀ (xs : List ℚ) (p : ℚ), (ewmAux alpha p xs).length = xs.length := by
  intro xs
  induction xs with
  | nil => intro p; rfl
  | cons x t ih => intro p; simp [ewmAux, ih]

/-- Helper: the EMA preserves length. -/
theorem ewm_length (alpha : ℚ) (xs : List ℚ) : (ewm alpha xs).length = xs.length := by
  cases xs with
  | nil => rfl
  | cons x t => simp [ewm, ewmAux_length]

/-- Helper: head of the EMA tail. -/
theorem ewmAux_getD_zero (alpha p x : ℚ) (t : List ℚ) :
    (ewmAux alpha p (x :: t)).getD 0 0 = (1 - alpha) * p + alpha * x := rfl

/-- Helper: the EMA tail satisfies the recurrence. -/
theorem ewmAux_getD_succ (alpha : ℚ) :
    ∀ (xs : List ℚ) (p : ℚ) (j : ℕ), j + 1 < xs.length →
      (ewmAux alpha p xs).getD (j + 1) 0 =
        (1 - alpha) * (ewmAux alpha p xs).getD j 0 + alpha * xs.getD (j + 1) 0 := by
  intro xs
  induction xs with
  | nil => intro p j hj; simp at hj
  | cons x t ih =>
    intro p j hj
    cases j with
    | zero =>
      cases t with
      | nil => simp at hj
      | cons x1 t1 =>
        show (ewmAux alpha ((1 - alpha) * p + alpha * x) (x1 :: t1)).getD 0 0 = _
        rw [ewmAux_getD_zero]
        rfl
    | succ j1 =>
      have hj1 : j1 + 1 < t.length := by
        simp only [List.length_cons] at hj
        omega
      show (ewmAux alpha ((1 - alpha) * p + alpha * x) t).getD (j1 + 1) 0 = _
      rw [ih ((1 - alpha) * p + alpha * x) j1 hj1]
      rfl

/-- Helper: the EMA is seeded by the first value. -/
theorem ewm_getD_zero (alpha : ℚ) (xs : List ℚ) (h : xs ≠ []) :
    (ewm alpha xs).getD 0 0 = xs.getD 0 0 := by
  cases xs with
  | nil => exact absurd rfl h
  | cons x t => rfl

/-- Helper: the EMA satisfies the standard recurrence
y(j+1) = (1 - alpha) * y(j) + alpha * x(j+1). -/
theorem ewm_getD_succ (alpha : ℚ) (xs : List ℚ) (j : ℕ) (hj : j + 1 < xs.length) :
    (ewm alpha xs).getD (j + 1) 0 =
      (1 - alpha) * (ewm alpha xs).getD j 0 + alpha * xs.getD (j + 1) 0 := by
  cases xs with
  | nil => simp at hj
  | cons x t =>
    cases j with
    | zero =>
      cases t with
      | nil => simp at hj
      | cons x1 t1 =>
        show (ewmAux alpha x (x1 :: t1)).getD 0 0 = _
        rw [ewmAux_getD_zero]
        rfl
    | succ j1 =>
      have hj1 : j1 + 1 < t.length := by
        simp only [List.length_cons] at hj
        omega
      show (ewmAux alpha x t).getD (j1 + 1) 0 = _
      rw [ewmAux_getD_succ alpha t x j1 hj1]
      rfl

/-- Helper: pointwise reading of an elementwise difference of columns. -/
theorem zipWith_sub_getD :
    ∀ (a b : List ℚ) (i : ℕ), i < a.length → i < b.length →
      (List.zipWith (fun x y => x - y) a b).getD i 0 = a.getD i 0 - b.getD i 0 := by
  intro a
  induction a with
  | nil => intro b i ha; simp at ha
  | cons x t ih =>
    intro b i ha hb
    cases b with
    | nil => simp at hb
    | cons y u =>
      cases i with
      | zero => rfl
      | succ j =>
        simp only [List.zipWith_cons_cons, List.getD_cons_succ]
        refine ih u j ?_ ?_
        · simp only [List.length_cons] at ha; omega
        · simp only [List.length_cons] at hb; omega

/-- Helper: the MPMI line column has one entry per bar. -/
theorem MPMI_Line_length (bars : List Bar) : (MPMI_Line bars).length = bars.length := by
  unfold MPMI_Line
  rw [List.length_zipWith, ewm_length, ewm_length]
  unfold mid_price_col
  rw [List.length_map, min_self]

/-- Helper: the MPMI signal column has one entry per bar. -/
theorem MPMI_Signal_length (bars : List Bar) : (MPMI_Signal bars).length = bars.length := by
  unfold MPMI_Signal
  rw [ewm_length, MPMI_Line_length]

/-- C6: the MPMI family is built from first-value-seeded standard EMA
recurrences with alpha = 2/(span+1) for spans 12, 26 (and 9 for the
signal); line = short EMA - long EMA, signal = 9-span EMA of the line,
histogram = line - signal; for i >= 1 the golden cross holds exactly when
the line is above the signal at i and was not above at i-1, and the death
cross is the mirror condition. -/
theorem claim_C6 (bars : List Bar) (i : ℕ) (h1 : 1 ≤ i) (hi : i < bars.length) :
    (lineAt bars i =
      (ewm (emaAlpha 12) (mid_price_col bars)).getD i 0 -
        (ewm (emaAlpha 26) (mid_price_col bars)).getD i 0)
  ∧ MPMI_Signal bars = ewm (emaAlpha 9) (MPMI_Line bars)
  ∧ ((MPMI_Hist bars).getD i 0 = lineAt bars i - signalAt bars i)
  ∧ emaAlpha 12 = 2 / 13 ∧ emaAlpha 26 = 2 / 27 ∧ emaAlpha 9 = 2 / 10
  ∧ (∀ (xs : List ℚ) (alpha : ℚ), xs ≠ [] → (ewm alpha xs).getD 0 0 = xs.getD 0 0)
  ∧ (∀ (xs : List ℚ) (alpha : ℚ) (j : ℕ), j + 1 < xs.length →
      (ewm alpha xs).getD (j + 1) 0 =
        (1 - alpha) * (ewm alpha xs).getD j 0 + alpha * xs.getD (j + 1) 0)
  ∧ (MPMI_GoldenCross bars i = true ↔
      lineAt bars i > signalAt bars i ∧ lineAt bars (i - 1) ≤ signalAt bars (i - 1))
  ∧ (MPMI_DeathCross bars i = true ↔
      lineAt bars i < signalAt bars i ∧ lineAt bars (i - 1) ≥ signalAt bars (i - 1)) := by
  have hmlen : (mid_price_col bars).length = bars.length := List.length_map _ _
  refine ⟨?_, rfl, ?_, by norm_num [emaAlpha], by norm_num [emaAlpha], by norm_num [emaAlpha],
    fun xs alpha hxs => ewm_getD_zero alpha xs hxs,
    fun xs alpha j hj => ewm_getD_succ alpha xs j hj, ?_, ?_⟩
  · unfold lineAt MPMI_Line
    exact zipWith_sub_getD _ _ i (by rw [ewm_length]; omega) (by rw [ewm_length]; omega)
  · unfold MPMI_Hist lineAt signalAt
    exact zipWith_sub_getD _ _ i (by rw [MPMI_Line_length]; omega)
      (by rw [MPMI_Signal_length]; omega)
  · unfold MPMI_GoldenCross
    rw [if_pos ⟨h1, hi⟩]
    simp
  · unfold MPMI_DeathCross
    rw [if_pos ⟨h1, hi⟩]
    simp

/-- C6 witness: mid-prices 100 then 110 push the line above its signal at
index 1, producing a golden cross there and no death cross. -/
theorem claim_C6_wit :
    MPMI_GoldenCross c6ex 1 = true ∧ MPMI_DeathCross c6ex 1 = false := by
  have h := claim_C6 c6ex 1 (by omega) (by decide)
  constructor
  · refine (h.2.2.2.2.2.2.2.2.1).mpr ⟨?_, ?_⟩
    · unfold lineAt signalAt MPMI_Signal MPMI_Line mid_price_col mid_price c6ex emaAlpha
      norm_num [ewm, ewmAux]
    · unfold lineAt signalAt MPMI_Signal MPMI_Line mid_price_col mid_price c6ex emaAlpha
      norm_num [ewm, ewmAux]
  · cases hb : MPMI_DeathCross c6ex 1
    · rfl
    · exfalso
      have hd := (h.2.2.2.2.2.2.2.2.2).mp hb
      have hg : lineAt c6ex 1 > signalAt c6ex 1 := by
        unfold lineAt signalAt MPMI_Signal MPMI_Line mid_price_col mid_price c6ex emaAlpha
        norm_num [ewm, ewmAux]
      exact absurd hd.1 (not_lt.mpr (le_of_lt hg))

/-- Helper: the alert list of a long-enough frame is the concatenation of
the breakout block, the amplitude block and the fund-flow block. -/
theorem alerts_block (df : List EnrichedBar) (window : ℕ) (aθ pθ : ℚ)
    (hg : ¬ (df.length = 0 ∨ df.length < window)) :
    generate_alerts df window aθ pθ =
      breakoutBlock df window pθ ++ ampBlock df aθ ++ fundBlock df := by
  unfold generate_alerts
  rw [if_neg hg]

/-- C9: generate_alerts emits at most one of the up and down breakout
alerts, with the up condition checked first, and returns the empty list
(never an error: it is a total function) when no condition triggers on
the latest bar. -/
theorem claim_C9 (df : List EnrichedBar) (window : ℕ) (aθ pθ : ℚ) :
    (¬ ((∃ a ∈ generate_alerts df window aθ pθ, a.kind = AlertKind.breakout_up) ∧
        (∃ a ∈ generate_alerts df window aθ pθ, a.kind = AlertKind.breakout_down)))
  ∧ (alertUpCond df window pθ = true →
      ∀ a ∈ generate_alerts df window aθ pθ, a.kind ≠ AlertKind.breakout_down)
  ∧ (alertUpCond df window pθ = false → alertDownCond df window pθ = false →
      alertAmpCond df aθ = false → alertFundCond df = false →
      generate_alerts df window aθ pθ = []) := by
  by_cases hg : df.length = 0 ∨ df.length < window
  · have he : generate_alerts df window aθ pθ = [] := by
      unfold generate_alerts
      rw [if_pos hg]
    refine ⟨?_, ?_, ?_⟩ <;> simp [he]
  · have hb := alerts_block df window aθ pθ hg
    have h2mem : ∀ a : Alert, a ∈ ampBlock df aθ → a.kind = AlertKind.abnormal_amplitude := by
      intro a ha
      unfold ampBlock at ha
      cases hamp : alertAmpCond df aθ
      · rw [hamp] at ha
        simp at ha
      · rw [hamp] at ha
        simp at ha
        rw [ha]
    have h3mem : ∀ a : Alert, a ∈ fundBlock df →
        a.kind = AlertKind.fund_flow_in ∨ a.kind = AlertKind.fund_flow_out := by
      intro a ha
      unfold fundBlock at ha
      rcases hfl : (latestBar df).main_net_inflow with _ | v
      · rw [hfl] at ha
        simp at ha
      · rw [hfl] at ha
        by_cases hv : |v| > 1000000
        · simp [hv] at ha
          rw [ha]
          by_cases h0 : 0 < v <;> simp [h0]
        · simp [hv] at ha
    have h1mem : ∀ a : Alert, a ∈ breakoutBlock df window pθ →
        (a.kind = AlertKind.breakout_up ∧ alertUpCond df window pθ = true) ∨
          (a.kind = AlertKind.breakout_down ∧ alertUpCond df window pθ = false) := by
      intro a ha
      unfold breakoutBlock at ha
      cases hu : alertUpCond df window pθ
      · rw [hu] at ha
        cases hd : alertDownCond df window pθ
        · rw [hd] at ha
          simp at ha
        · rw [hd] at ha
          simp at ha
          right
          exact ⟨by rw [ha], rfl⟩
      · rw [hu] at ha
        simp at ha
        left
        exact ⟨by rw [ha], rfl⟩
    refine ⟨?_, ?_, ?_⟩
    · rintro ⟨⟨a, ha, hka⟩, ⟨b, hbm, hkb⟩⟩
      rw [hb] at ha hbm
      simp only [List.mem_append] at ha hbm
      have hu_true : alertUpCond df window pθ = true := by
        rcases ha with (h1 | h2) | h3
        · rcases h1mem a h1 with ⟨-, h⟩ | ⟨hk, -⟩
          · exact h
          · rw [hka] at hk
            cases hk
        · rw [h2mem a h2] at hka
          cases hka
        · rcases h3mem a h3 with hk | hk <;> (rw [hka] at hk; cases hk)
      rcases hbm with (h1 | h2) | h3
      · rcases h1mem b h1 with ⟨hk, -⟩ | ⟨-, h⟩
        · rw [hkb] at hk
          cases hk
        · rw [hu_true] at h
          cases h
      · rw [h2mem b h2] at hkb
        cases hkb
      · rcases h3mem b h3 with hk | hk <;> (rw [hkb] at hk; cases hk)
    · intro hu a ham
      rw [hb] at ham
      simp only [List.mem_append] at ham
      rcases ham with (h1 | h2) | h3
      · rcases h1mem a h1 with ⟨hk, -⟩ | ⟨-, hfalse⟩
        · rw [hk]
          simp
        · rw [hu] at hfalse
          cases hfalse
      · rw [h2mem a h2]
        simp
      · rcases h3mem a h3 with hk | hk <;> (rw [hk]; simp)
    · intro hu hd hamp hfund
      rw [hb]
      unfold breakoutBlock ampBlock fundBlock
      unfold alertFundCond at hfund
      rcases hfl : (latestBar df).main_net_inflow with _ | v
      · simp [hu, hd, hamp]
      · rw [hfl] at hfund
        simp at hfund
        simp [hu, hd, hamp, hfund]

/-- C9 witness: five flat enriched bars with no optional fields trigger
nothing and yield the empty alert list. -/
theorem claim_C9_wit : generate_alerts c9ex 5 90 (1 / 50) = [] := by
  refine (claim_C9 c9ex 5 90 (1 / 50)).2.2 ?_ ?_ ?_ ?_
  · unfold alertUpCond alertHist latestBar c9ex
    norm_num
  · unfold alertDownCond alertHist latestBar c9ex
    norm_num
  · rfl
  · rfl

/-- Helper: lexLe is reflexive. -/
theorem lexLe_refl (a : ℚ × ℚ) : lexLe a a := Or.inr ⟨rfl, le_refl _⟩

/-- Helper: lexLe followed by lexLt stays lexLe. -/
theorem lexLe_trans_lexLt (a b c : ℚ × ℚ) (h1 : lexLe a b) (h2 : lexLt b c) : lexLe a c := by
  unfold lexLe at h1 ⊢
  unfold lexLt at h2
  rcases h1 with h1 | ⟨e1, le1⟩
  · rcases h2 with h2 | ⟨e2, -⟩
    · exact Or.inl (h1.trans h2)
    · exact Or.inl (by rw [← e2]; exact h1)
  · rcases h2 with h2 | ⟨e2, lt2⟩
    · exact Or.inl (by rw [e1]; exact h2)
    · exact Or.inr ⟨e1.trans e2, le1.trans lt2.le⟩

/-- Helper: the grid-search fold started from a live best pair computes
the first argmax of that pair and the remaining grid. -/
theorem searchBest_eq (f : ℚ × ℚ → ℚ) :
    ∀ (l : List (ℚ × ℚ)) (b : ℚ × ℚ),
      searchBest f (b, some (f b)) l =
        (firstArgmax f b l, some (f (firstArgmax f b l))) := by
  intro l
  induction l with
  | nil => intro b; rfl
  | cons p rest ih =>
    intro b
    by_cases h : f b < f p
    · simp [searchBest, firstArgmax, beats, h, ih]
    · simp [searchBest, firstArgmax, beats, h, ih]

/-- Helper: over a lexicographically sorted list, the first-argmax fold
returns an element of the candidates, maximal for f, and
lexicographically least among the tied maximizers. -/
theorem firstArgmax_spec (f : ℚ × ℚ → ℚ) :
    ∀ (l : List (ℚ × ℚ)) (b : ℚ × ℚ), List.Pairwise lexLt (b :: l) →
      (firstArgmax f b l = b ∨ firstArgmax f b l ∈ l)
    ∧ (∀ x, (x = b ∨ x ∈ l) → f x ≤ f (firstArgmax f b l))
    ∧ (∀ x, (x = b ∨ x ∈ l) → f x = f (firstArgmax f b l) →
        lexLe (firstArgmax f b l) x) := by
  intro l
  induction l with
  | nil =>
    intro b _
    refine ⟨Or.inl rfl, ?_, ?_⟩
    · rintro x (rfl | hx)
      · exact le_refl _
      · simp at hx
    · rintro x (rfl | hx) _
      · exact lexLe_refl _
      · simp at hx
  | cons p rest ih =>
    intro b hp
    have hbp : lexLt b p := (List.pairwise_cons.mp hp).1 p (by simp)
    have hbrest : ∀ x ∈ rest, lexLt b x := fun x hx =>
      (List.pairwise_cons.mp hp).1 x (by simp [hx])
    have hprest : List.Pairwise lexLt (p :: rest) := (List.pairwise_cons.mp hp).2
    by_cases h : f b < f p
    · have heq : firstArgmax f b (p :: rest) = firstArgmax f p rest := by
        simp [firstArgmax, h]
      have hrec := ih p hprest
      rw [heq]
      refine ⟨?_, ?_, ?_⟩
      · rcases hrec.1 with h1 | h1
        · right; simp [h1]
        · right; simp [h1]
      · rintro x (rfl | hx)
        · exact le_of_lt (lt_of_lt_of_le h (hrec.2.1 p (Or.inl rfl)))
        · rcases List.mem_cons.mp hx with rfl | hx2
          · exact hrec.2.1 x (Or.inl rfl)
          · exact hrec.2.1 x (Or.inr hx2)
      · rintro x (rfl | hx) hf
        · exfalso
          have hlt := lt_of_lt_of_le h (hrec.2.1 p (Or.inl rfl))
          rw [hf] at hlt
          exact lt_irrefl _ hlt
        · rcases List.mem_cons.mp hx with rfl | hx2
          · exact hrec.2.2 x (Or.inl rfl) hf
          · exact hrec.2.2 x (Or.inr hx2) hf
    · have heq : firstArgmax f b (p :: rest) = firstArgmax f b rest := by
        simp [firstArgmax, h]
      have hbrest_pw : List.Pairwise lexLt (b :: rest) := by
        rw [List.pairwise_cons]
        exact ⟨hbrest, (List.pairwise_cons.mp hprest).2⟩
      have hrec := ih b hbrest_pw
      rw [heq]
      refine ⟨?_, ?_, ?_⟩
      · rcases hrec.1 with h1 | h1
        · exact Or.inl h1
        · right; simp [h1]
      · rintro x (rfl | hx)
        · exact hrec.2.1 x (Or.inl rfl)
        · rcases List.mem_cons.mp hx with rfl | hx2
          · exact le_trans (not_lt.mp h) (hrec.2.1 b (Or.inl rfl))
          · exact hrec.2.1 x (Or.inr hx2)
      · rintro x (rfl | hx) hf
        · exact hrec.2.2 x (Or.inl rfl) hf
        · rcases List.mem_cons.mp hx with rfl | hx2
          · have hfb : f b = f (firstArgmax f b rest) :=
              le_antisymm (hrec.2.1 b (Or.inl rfl)) (hf ▸ not_lt.mp h)
            exact lexLe_trans_lexLt _ _ _ (hrec.2.2 b (Or.inl rfl) hfb) hbp
          · exact hrec.2.2 x (Or.inr hx2) hf

/-- Helper: an ascending arange is strictly sorted. -/
theorem arange_pairwise (s e st : ℚ) (h : 0 < st) :
    List.Pairwise (fun a b => a < b) (arange s e st) := by
  unfold arange
  rw [List.pairwise_map]
  refine (List.pairwise_lt_range _).imp ?_
  intro a b hab
  have hq : (a : ℚ) < (b : ℚ) := by exact_mod_cast hab
  have h2 := mul_lt_mul_of_pos_right hq h
  linarith

/-- Helper: the start point belongs to a nonempty ascending arange. -/
theorem arange_mem_start (s e st : ℚ) (hst : 0 < st) (hse : s < e) : s ∈ arange s e st := by
  unfold arange
  rw [if_pos hst]
  refine List.mem_map.mpr ⟨0, ?_, by norm_num⟩
  refine List.mem_range.mpr ?_
  have hpos : (0 : ℚ) < (e - s) / st := div_pos (by linarith) hst
  have hc := Int.ceil_pos.mpr hpos
  omega

/-- Helper: the row-major product of two strictly sorted lists is
strictly sorted lexicographically. -/
theorem product_pairwise (us ls : List ℚ) (hus : List.Pairwise (fun a b => a < b) us)
    (hls : List.Pairwise (fun a b => a < b) ls) :
    List.Pairwise lexLt (us.flatMap (fun u => ls.map (fun l => (u, l)))) := by
  induction us with
  | nil => simp
  | cons u ut ih =>
    simp only [List.flatMap_cons]
    rw [List.pairwise_append]
    refine ⟨?_, ih (List.pairwise_cons.mp hus).2, ?_⟩
    · refine List.pairwise_map.mpr (hls.imp ?_)
      intro a b hab
      exact Or.inr ⟨rfl, hab⟩
    · intro x hx y hy
      rcases List.mem_map.mp hx with ⟨lx, _, rfl⟩
      rcases List.mem_flatMap.mp hy with ⟨u2, hu2, hy2⟩
      rcases List.mem_map.mp hy2 with ⟨ly, _, rfl⟩
      exact Or.inl ((List.pairwise_cons.mp hus).1 u2 hu2)

/-- Helper: positive steps make the grid lexicographically sorted in
iteration order. -/
theorem grid_pairwise (ur lr : PRange) (hu : 0 < ur.step) (hl : 0 < lr.step) :
    List.Pairwise lexLt (gridPairs ur lr) := by
  unfold gridPairs
  exact product_pairwise _ _ (arange_pairwise _ _ _ hu) (arange_pairwise _ _ _ hl)

/-- C8 (amended): for a series of at least 10 bars and ascending
(positive-step) ranges with a nonempty grid, the optimizer returns a grid
pair whose backtest total_return is maximal over the whole grid, reports
that return, and among tied maximizers returns the first-visited, i.e.
lexicographically smallest, pair.  (Series shorter than 10 bars take the
early-return default (0.01, 0.01) without searching — see the
counterexample.) -/
theorem claim_C8 (df : List TradeBar) (ur lr : PRange)
    (hlen : 10 ≤ df.length) (hne : gridPairs ur lr ≠ [])
    (hu : 0 < ur.step) (hl : 0 < lr.step) :
    ((optimize_parameters df ur lr).best_upper,
        (optimize_parameters df ur lr).best_lower) ∈ gridPairs ur lr
  ∧ (optimize_parameters df ur lr).best_return =
      some (totalReturn df ((optimize_parameters df ur lr).best_upper,
        (optimize_parameters df ur lr).best_lower))
  ∧ (∀ p ∈ gridPairs ur lr,
      totalReturn df p ≤ totalReturn df ((optimize_parameters df ur lr).best_upper,
        (optimize_parameters df ur lr).best_lower))
  ∧ (∀ p ∈ gridPairs ur lr,
      totalReturn df p = totalReturn df ((optimize_parameters df ur lr).best_upper,
        (optimize_parameters df ur lr).best_lower) →
      lexLe ((optimize_parameters df ur lr).best_upper,
        (optimize_parameters df ur lr).best_lower) p) := by
  obtain ⟨p0, rest, hgrid⟩ := List.exists_cons_of_ne_nil hne
  have hng : ¬ df.length < 10 := by omega
  have hsb : searchBest (totalReturn df) ((1 / 100, 1 / 100), none) (gridPairs ur lr) =
      (firstArgmax (totalReturn df) p0 rest,
        some (totalReturn df (firstArgmax (totalReturn df) p0 rest))) := by
    rw [hgrid]
    have h1 : searchBest (totalReturn df) ((1 / 100, 1 / 100), none) (p0 :: rest) =
        searchBest (totalReturn df) (p0, some (totalReturn df p0)) rest := by
      simp [searchBest, beats]
    rw [h1]
    exact searchBest_eq (totalReturn df) rest p0
  have hup : (optimize_parameters df ur lr).best_upper =
      (firstArgmax (totalReturn df) p0 rest).1 := by
    unfold optimize_parameters
    rw [if_neg hng, hsb]
  have hlo : (optimize_parameters df ur lr).best_lower =
      (firstArgmax (totalReturn df) p0 rest).2 := by
    unfold optimize_parameters
    rw [if_neg hng, hsb]
  have hbr : (optimize_parameters df ur lr).best_return =
      some (totalReturn df (firstArgmax (totalReturn df) p0 rest)) := by
    unfold optimize_parameters
    rw [if_neg hng, hsb]
  have hpair : ((optimize_parameters df ur lr).best_upper,
      (optimize_parameters df ur lr).best_lower) = firstArgmax (totalReturn df) p0 rest := by
    rw [hup, hlo]
  have hpw : List.Pairwise lexLt (p0 :: rest) := by
    rw [← hgrid]
    exact grid_pairwise ur lr hu hl
  have hspec := firstArgmax_spec (totalReturn df) rest p0 hpw
  refine ⟨?_, ?_, ?_, ?_⟩
  · rw [hpair, hgrid]
    rcases hspec.1 with h1 | h1
    · simp [h1]
    · simp [h1]
  · rw [hbr, hpair]
  · intro p hpmem
    rw [hpair]
    rw [hgrid] at hpmem
    rcases List.mem_cons.mp hpmem with rfl | h2
    · exact hspec.2.1 p (Or.inl rfl)
    · exact hspec.2.1 p (Or.inr h2)
  · intro p hpmem hfp
    rw [hpair] at hfp ⊢
    rw [hgrid] at hpmem
    rcases List.mem_cons.mp hpmem with rfl | h2
    · exact hspec.2.2 p (Or.inl rfl) hfp
    · exact hspec.2.2 p (Or.inr h2) hfp

/-- C8 counterexample: on an empty series the optimizer skips the search
and returns (0.01, 0.01), although the lexicographically smaller grid
pair (0.005, 0.005) ties for the maximal total_return (every pair returns
0 on an empty series), so the claim fails as stated for short series. -/
theorem claim_C8_cex :
    (optimize_parameters [] defaultR defaultR).best_upper = 1 / 100
  ∧ (optimize_parameters [] defaultR defaultR).best_lower = 1 / 100
  ∧ (1 / 200, 1 / 200) ∈ gridPairs defaultR defaultR
  ∧ totalReturn [] (1 / 200, 1 / 200) = totalReturn [] (1 / 100, 1 / 100)
  ∧ lexLt (1 / 200, 1 / 200) (1 / 100, 1 / 100)
  ∧ ((1 / 100 : ℚ), (1 / 100 : ℚ)) ≠ ((1 / 200 : ℚ), (1 / 200 : ℚ)) := by
  refine ⟨rfl, rfl, ?_, rfl, Or.inl (by norm_num), ?_⟩
  · unfold gridPairs defaultR
    refine List.mem_flatMap.mpr ⟨1 / 200, ?_, List.mem_map.mpr ⟨1 / 200, ?_, rfl⟩⟩
    · exact arange_mem_start _ _ _ (by norm_num) (by norm_num)
    · exact arange_mem_start _ _ _ (by norm_num) (by norm_num)
  · intro hc
    rw [Prod.mk.injEq] at hc
    norm_num at hc

/-- C8 witness: ten flat bars with the singleton grid (0.01, 0.01): the
optimizer's returned pair is a member of the grid. -/
theorem claim_C8_wit :
    ((optimize_parameters c8df c8r c8r).best_upper,
      (optimize_parameters c8df c8r c8r).best_lower) ∈ gridPairs c8r c8r := by
  refine (claim_C8 c8df c8r c8r (by decide) ?_ (by norm_num [c8r]) (by norm_num [c8r])).1
  have hmem : ((1 : ℚ) / 100, (1 : ℚ) / 100) ∈ gridPairs c8r c8r := by
    unfold gridPairs c8r
    refine List.mem_flatMap.mpr ⟨1 / 100, ?_, List.mem_map.mpr ⟨1 / 100, ?_, rfl⟩⟩
    · exact arange_mem_start _ _ _ (by norm_num) (by norm_num)
    · exact arange_mem_start _ _ _ (by norm_num) (by norm_num)
  exact List.ne_nil_of_mem hmem

end GridTrading
